import Mathlib

/-!
Verification development for the price-tracker program (src/tracker.py).

The extractor (extract_price_candidates) and the comparator (compare_and_alert)
are embedded shallowly.  Python floats are modelled as rationals; the decimal
round-half-even of Python round(c, 2) is modelled exactly on rationals.  The
regular-expression scans (PRICE_RE, EXCLUDE_NEAR) are embedded as concrete
scanners that follow the semantics of the two patterns in the source, with the
word-boundary rules of the regex engine made explicit.  External collaborators
(the HTML parser that locates script blocks, the JSON parser, and the numeric
coercion of float()) are modelled as total Lean functions on the subset of
behaviour the program relies on; fallible steps return Option and failures are
skipped exactly where the source swallows exceptions.
-/

/-- ASCII decimal digit, the [0-9] class of the source patterns. -/
def isDigitC (c : Char) : Bool := decide ('0' ≤ c) && decide (c ≤ '9')

/-- Word character for the regex word boundary: alphanumeric or underscore. -/
def isWordC (c : Char) : Bool := c == '_' || c.isAlphanum

/-- Whitespace matched by the regex class \s (ASCII subset). -/
def isSpaceC (c : Char) : Bool := ([' ', '\t', '\n', '\r', '\x0b', '\x0c']).contains c

/-- Round-half-even on rationals, the rounding used by Python round(). -/
def roundHalfEven (q : ℚ) : ℤ :=
  if q - ⌊q⌋ < 1/2 then ⌊q⌋
  else if 1/2 < q - ⌊q⌋ then ⌊q⌋ + 1
  else if ⌊q⌋ % 2 = 0 then ⌊q⌋ else ⌊q⌋ + 1

/-- Python round(c, 2): round to 2 decimal places, half to even. -/
def round2 (c : ℚ) : ℚ := (roundHalfEven (c * 100) : ℚ) / 100

/-- Insert a value into a strictly ascending list, keeping it ascending and
duplicate-free.  Folding this over a list embeds sorted(set(...)). -/
def insertUniq (x : ℚ) : List ℚ → List ℚ
  | [] => [x]
  | y :: ys => if x < y then x :: y :: ys else if x = y then y :: ys else y :: insertUniq x ys

/-- sorted(set(l)): the strictly ascending enumeration of the values of l. -/
def sortedUnique (l : List ℚ) : List ℚ := l.foldr insertUniq []

/-- Digits of a number token to its natural value. -/
def digitsToNat (ds : List Char) : Nat := ds.foldl (fun a c => a * 10 + (c.toNat - 48)) 0

/-- Greedy (?:,[0-9]\x7b3\x7d)* of PRICE_RE: comma groups of exactly three
digits, returning the matched characters and the length consumed. -/
def commaGroups : List Char → List Char × Nat
  | ',' :: a :: b :: c :: rest =>
    if isDigitC a && isDigitC b && isDigitC c then
      let p := commaGroups rest
      (',' :: a :: b :: c :: p.1, p.2 + 4)
    else ([], 0)
  | _ => ([], 0)

/-- Optional (?:\.[0-9]\x7b2\x7d)? of PRICE_RE: a dot and exactly two digits. -/
def fracTok : List Char → List Char × Nat
  | '.' :: a :: b :: _ => if isDigitC a && isDigitC b then (['.', a, b], 3) else ([], 0)
  | _ => ([], 0)

/-- The captured amount of PRICE_RE:
[0-9]\x7b1,3\x7d(?:,[0-9]\x7b3\x7d)*(?:\.[0-9]\x7b2\x7d)? matched greedily at
the head of the input.  Returns the captured characters and length consumed. -/
def numTok (l : List Char) : Option (List Char × Nat) :=
  let ds := l.takeWhile isDigitC
  if ds.isEmpty then none
  else
    let k := min 3 ds.length
    let head := l.take k
    let cg := commaGroups (l.drop k)
    let fr := fracTok (l.drop (k + cg.2))
    some (head ++ cg.1 ++ fr.1, k + cg.2 + fr.2)

/-- Length of the greedy \s* run at the head of the input. -/
def spacesLen (l : List Char) : Nat := (l.takeWhile isSpaceC).length

/-- Case-insensitive literal USD at the head of the input. -/
def usdAt : List Char → Option (List Char)
  | a :: b :: c :: r =>
    if a.toLower == 'u' && b.toLower == 's' && c.toLower == 'd' then some r else none
  | _ => none

/-- \$\s* followed by the amount, at the head of the input. -/
def dollarNum : List Char → Option (Nat × List Char)
  | '$' :: r =>
    let w := spacesLen r
    match numTok (r.drop w) with
    | some (g, n) => some (1 + w + n, g)
    | none => none
  | _ => none

/-- One attempt of PRICE_RE at position i of the markup, following the
alternation and greediness of the pattern
(?i)(?:\bUSD\s*)?\$\s*(amount)|(?i)\bUSD\s*(amount): first the optional
USD-prefixed dollar branch, then the bare dollar branch, then the bare USD
branch.  Returns the length of the whole match and the captured amount. -/
def PRICE_RE_matchAt (html : List Char) (i : Nat) : Option (Nat × List Char) :=
  let s := html.drop i
  let wb : Bool :=
    if i = 0 then true
    else
      match (html.drop (i - 1)).head? with
      | some c => !(isWordC c)
      | none => true
  let withPre : Option (Nat × List Char) :=
    if wb then
      match usdAt s with
      | some r =>
        let w := spacesLen r
        match dollarNum (r.drop w) with
        | some (n, g) => some (3 + w + n, g)
        | none => none
      | none => none
    else none
  let b1 : Option (Nat × List Char) :=
    match withPre with
    | some x => some x
    | none => dollarNum s
  match b1 with
  | some x => some x
  | none =>
    if wb then
      match usdAt s with
      | some r =>
        let w := spacesLen r
        match numTok (r.drop w) with
        | some (g, n) => some (3 + w + n, g)
        | none => none
      | none => none
    else none

/-- Scanning loop of PRICE_RE.finditer: leftmost matches, resuming after each
match end.  Fuel bounds the scan; every match consumes at least one character,
so fuel html.length + 1 is enough.  Yields (start, end, captured amount). -/
def PRICE_RE_finditer_go (html : List Char) : Nat → Nat → List (Nat × Nat × List Char)
  | _, 0 => []
  | i, Nat.succ fuel =>
    if i < html.length then
      match PRICE_RE_matchAt html i with
      | some (n, g) => (i, i + n, g) :: PRICE_RE_finditer_go html (i + n) fuel
      | none => PRICE_RE_finditer_go html (i + 1) fuel
    else []

/-- PRICE_RE.finditer over the whole markup. -/
def PRICE_RE_finditer (html : List Char) : List (Nat × Nat × List Char) :=
  PRICE_RE_finditer_go html 0 (html.length + 1)

/-- The alternatives of EXCLUDE_NEAR, lowercased, with the s? alternations of
review/rating/point and the trade[- ]?in variants expanded. -/
def denyAlts : List (List Char) :=
  (["gb", "mah", "nit", "nits", "inch", "in.", "ppi", "reviews", "review",
    "ratings", "rating", "points", "point", "/mo", "per month", "%",
    "trade-in", "trade in", "tradein"]).map (fun s => s.toList)

/-- Whether the character at position k is a word character (out of range
counts as non-word, as at the ends of the regex subject). -/
def wordAt (l : List Char) (k : Nat) : Bool :=
  match (l.drop k).head? with
  | some c => isWordC c
  | none => false

/-- Regex word boundary \b between positions p-1 and p. -/
def boundaryAt (l : List Char) (p : Nat) : Bool :=
  (if p = 0 then false else wordAt l (p - 1)) != wordAt l p

/-- Case-insensitive literal match of w at position p. -/
def ciMatchAt (l : List Char) (p : Nat) (w : List Char) : Bool :=
  ((l.drop p).take w.length).map Char.toLower == w

/-- EXCLUDE_NEAR matches at position p: some deny-list alternative matches
there with word boundaries on both sides, as required by \b(...)\b. -/
def EXCLUDE_NEAR_matchAt (l : List Char) (p : Nat) : Bool :=
  denyAlts.any (fun w => ciMatchAt l p w && boundaryAt l p && boundaryAt l (p + w.length))

/-- EXCLUDE_NEAR.search: does the deny pattern match anywhere in the text. -/
def EXCLUDE_NEAR_search (l : List Char) : Bool :=
  (List.range (l.length + 1)).any (fun p => EXCLUDE_NEAR_matchAt l p)

/-- The context window html[max(0, start-40) : min(len, end+40)] inspected
around a text match. -/
def contextOf (html : List Char) (s e : Nat) : List Char :=
  let lo := s - 40
  let hi := min html.length (e + 40)
  (html.drop lo).take (hi - lo)

/-- Strip a leading plus or minus sign, reporting whether it was a minus. -/
def stripSign : List Char → Bool × List Char
  | '-' :: r => (true, r)
  | '+' :: r => (false, r)
  | l => (false, l)

/-- Exponent part of a Python float literal: e or E, optional sign, digits. -/
def pyExp (v : ℚ) (l : List Char) : Option ℚ :=
  let p := stripSign l
  let es : ℤ := if p.1 then -1 else 1
  let ds := p.2.takeWhile isDigitC
  if ds.isEmpty || !(p.2.drop ds.length).isEmpty then none
  else some (v * (10 : ℚ) ^ (es * (digitsToNat ds : ℤ)))

/-- Model of Python float(s): optional surrounding whitespace and sign, then
digits with optional fractional part and optional exponent.  Returns none when
float() would raise ValueError.  (inf, nan and underscore separators are not
modelled; the program never produces them on its accepted inputs.) -/
def pyFloat (l0 : List Char) : Option ℚ :=
  let l := ((l0.dropWhile isSpaceC).reverse.dropWhile isSpaceC).reverse
  let sg := stripSign l
  let p : ℚ × List Char := (if sg.1 then -1 else 1, sg.2)
  let ip := p.2.takeWhile isDigitC
  let l2 := p.2.drop ip.length
  match l2 with
  | [] => if ip.isEmpty then none else some (p.1 * (digitsToNat ip : ℚ))
  | '.' :: r =>
    let fp := r.takeWhile isDigitC
    let l3 := r.drop fp.length
    if ip.isEmpty && fp.isEmpty then none
    else
      let base : ℚ := p.1 * ((digitsToNat ip : ℚ) + (digitsToNat fp : ℚ) / (10 : ℚ) ^ fp.length)
      match l3 with
      | [] => some base
      | 'e' :: r2 => pyExp base r2
      | 'E' :: r2 => pyExp base r2
      | _ => none
  | 'e' :: r2 => if ip.isEmpty then none else pyExp (p.1 * (digitsToNat ip : ℚ)) r2
  | 'E' :: r2 => if ip.isEmpty then none else pyExp (p.1 * (digitsToNat ip : ℚ)) r2
  | _ => none

/-- float(raw.replace(",", "")) applied to a captured amount. -/
def parsePriceGroup (g : List Char) : Option ℚ :=
  pyFloat (g.filter (fun c => c != ','))

/-- The text-pattern pass of extract_price_candidates: every PRICE_RE match,
skipped when EXCLUDE_NEAR matches the 40-character context window, otherwise
coerced to a number (coercion failure is swallowed, as in the source). -/
def text_pass (html : List Char) : List ℚ :=
  (PRICE_RE_finditer html).filterMap (fun m =>
    if EXCLUDE_NEAR_search (contextOf html m.1 m.2.1) then none
    else parsePriceGroup m.2.2)

/- JSON values as produced by json.loads, with arrays and objects as mutual
inductives so that the recursive walk is structural. -/
mutual
inductive PyJson where
  | null : PyJson
  | jbool : Bool → PyJson
  | num : ℚ → PyJson
  | jstr : String → PyJson
  | arr : JArr → PyJson
  | obj : JObj → PyJson
inductive JArr where
  | nil : JArr
  | cons : PyJson → JArr → JArr
inductive JObj where
  | nil : JObj
  | cons : String → PyJson → JObj → JObj
end

/-- The JSON string escape table (the \u escape is not modelled; the program
never depends on it). -/
def escPairs : List (Char × Char) :=
  [('"', '"'), ('\\', '\\'), ('/', '/'), ('n', '\n'), ('t', '\t'), ('r', '\r'),
   ('b', '\x08'), ('f', '\x0c')]

/-- Decode one JSON string escape character via the table. -/
def escChar (c : Char) : Option Char :=
  match escPairs.find? (fun p => p.1 == c) with
  | some p => some p.2
  | none => none

/-- Body of a JSON string after the opening quote: the decoded characters and
the rest of the input after the closing quote. -/
def pStrAux : List Char → Option (List Char × List Char)
  | [] => none
  | '"' :: r => some ([], r)
  | '\\' :: c :: r =>
    match escChar c with
    | some e =>
      match pStrAux r with
      | some p => some (e :: p.1, p.2)
      | none => none
    | none => none
  | c :: r =>
    match pStrAux r with
    | some p => some (c :: p.1, p.2)
    | none => none

/-- Exponent part of a JSON number. -/
def jExp (v : ℚ) (l : List Char) : Option (ℚ × List Char) :=
  let p := stripSign l
  let es : ℤ := if p.1 then -1 else 1
  let ds := p.2.takeWhile isDigitC
  if ds.isEmpty then none
  else some (v * (10 : ℚ) ^ (es * (digitsToNat ds : ℤ)), p.2.drop ds.length)

/-- Optional exponent after the mantissa of a JSON number. -/
def jExpOpt (v : ℚ) (l : List Char) : Option (ℚ × List Char) :=
  match l with
  | 'e' :: r => jExp v r
  | 'E' :: r => jExp v r
  | _ => some (v, l)

/-- A JSON number at the head of the input: sign, digits, optional fraction,
optional exponent.  Returns the value and the rest of the input. -/
def pNum (l : List Char) : Option (ℚ × List Char) :=
  let p : ℚ × List Char :=
    if l.head? == some '-' then ((-1 : ℚ), l.tail) else ((1 : ℚ), l)
  let ds := p.2.takeWhile isDigitC
  if ds.isEmpty then none
  else
    let l2 := p.2.drop ds.length
    let ip : ℚ := (digitsToNat ds : ℚ)
    match l2 with
    | '.' :: r =>
      let fs := r.takeWhile isDigitC
      if fs.isEmpty then none
      else jExpOpt (p.1 * (ip + (digitsToNat fs : ℚ) / (10 : ℚ) ^ fs.length)) (r.drop fs.length)
    | _ => jExpOpt (p.1 * ip) l2

/-- Strip the given literal keyword from the head of the input. -/
def stripKeyword : List Char → List Char → Option (List Char)
  | [], r => some r
  | c :: ws, x :: xs => if x == c then stripKeyword ws xs else none
  | _ :: _, [] => none

/- Recursive-descent JSON parser, fuel-bounded (fuel bounds the nesting of
recursive calls; the caller supplies more fuel than the input length can
use).  Models json.loads: any malformed input yields none. -/
mutual
def pVal : Nat → List Char → Option (PyJson × List Char)
  | 0, _ => none
  | Nat.succ f, l =>
    let l1 := l.dropWhile isSpaceC
    match stripKeyword (("null").toList) l1 with
    | some r => some (PyJson.null, r)
    | none =>
      match stripKeyword (("true").toList) l1 with
      | some r => some (PyJson.jbool true, r)
      | none =>
        match stripKeyword (("false").toList) l1 with
        | some r => some (PyJson.jbool false, r)
        | none =>
          match l1 with
          | '"' :: r =>
            match pStrAux r with
            | some p => some (PyJson.jstr (String.mk p.1), p.2)
            | none => none
          | '[' :: r => pArr f r
          | '\x7b' :: r => pObj f r
          | r =>
            match pNum r with
            | some p => some (PyJson.num p.1, p.2)
            | none => none
def pArr : Nat → List Char → Option (PyJson × List Char)
  | 0, _ => none
  | Nat.succ f, l =>
    match l.dropWhile isSpaceC with
    | ']' :: r => some (PyJson.arr JArr.nil, r)
    | l2 =>
      match pArrLoop f l2 with
      | some p => some (PyJson.arr p.1, p.2)
      | none => none
def pArrLoop : Nat → List Char → Option (JArr × List Char)
  | 0, _ => none
  | Nat.succ f, l =>
    match pVal f l with
    | some p =>
      match p.2.dropWhile isSpaceC with
      | ',' :: r2 =>
        match pArrLoop f r2 with
        | some q => some (JArr.cons p.1 q.1, q.2)
        | none => none
      | ']' :: r2 => some (JArr.cons p.1 JArr.nil, r2)
      | _ => none
    | none => none
def pObj : Nat → List Char → Option (PyJson × List Char)
  | 0, _ => none
  | Nat.succ f, l =>
    match l.dropWhile isSpaceC with
    | '\x7d' :: r => some (PyJson.obj JObj.nil, r)
    | l2 =>
      match pObjLoop f l2 with
      | some p => some (PyJson.obj p.1, p.2)
      | none => none
def pObjLoop : Nat → List Char → Option (JObj × List Char)
  | 0, _ => none
  | Nat.succ f, l =>
    match l.dropWhile isSpaceC with
    | '"' :: r =>
      match pStrAux r with
      | some pk =>
        match pk.2.dropWhile isSpaceC with
        | ':' :: r3 =>
          match pVal f r3 with
          | some pv =>
            match pv.2.dropWhile isSpaceC with
            | ',' :: r5 =>
              match pObjLoop f r5 with
              | some q => some (JObj.cons (String.mk pk.1) pv.1 q.1, q.2)
              | none => none
            | '\x7d' :: r5 => some (JObj.cons (String.mk pk.1) pv.1 JObj.nil, r5)
            | _ => none
          | none => none
        | _ => none
      | none => none
    | _ => none
end

/-- json.loads on a whole payload: a single value with only whitespace after
it; anything else fails. -/
def parseJson (l : List Char) : Option PyJson :=
  match pVal (4 * l.length + 16) l with
  | some p => if (p.2.dropWhile isSpaceC).isEmpty then some p.1 else none
  | none => none

/-- The keys whose values the structured-data walk collects. -/
def priceKeys : List String := ["price", "priceAmount", "lowPrice", "highPrice"]

/-- float(str(v).replace(",", "")) on a JSON value: numbers pass through,
numeric strings are parsed with commas stripped, and every other repr (None,
booleans, lists, dicts) makes float() raise, which the source swallows. -/
def coercePy : PyJson → Option ℚ
  | PyJson.num q => some q
  | PyJson.jstr s => pyFloat ((s.toList).filter (fun c => c != ','))
  | _ => none

/- The recursive walk of the structured-data pass: collect the coerced value
of every price-like key, and recurse into every object value and array item,
in source order. -/
mutual
def walk : PyJson → List ℚ
  | PyJson.obj kvs => walkObj kvs
  | PyJson.arr xs => walkArr xs
  | _ => []
def walkArr : JArr → List ℚ
  | JArr.nil => []
  | JArr.cons x xs => walk x ++ walkArr xs
def walkObj : JObj → List ℚ
  | JObj.nil => []
  | JObj.cons k v xs =>
    (if k ∈ priceKeys then
      (match coercePy v with
       | some q => [q]
       | none => [])
     else []) ++ (walk v ++ walkObj xs)
end

/-- Character at position k of the markup. -/
def charAt (l : List Char) (k : Nat) : Option Char := (l.drop k).head?

/-- Characters that may follow the tag name inside an opening script tag. -/
def isTagSep (c : Char) : Bool := isSpaceC c || c == '>' || c == '/'

/-- Least position at or after start satisfying the predicate. -/
def findIdxFrom (l : List Char) (start : Nat) (pred : Nat → Bool) : Option Nat :=
  ((List.range (l.length + 1)).filter (fun j => decide (start ≤ j) && pred j)).head?

/-- The characters of positions [a, b) of the markup. -/
def listSlice (l : List Char) (a b : Nat) : List Char := (l.drop a).take (b - a)

/-- Case-sensitive substring test. -/
def containsSub (hay needle : List Char) : Bool :=
  (List.range (hay.length + 1)).any (fun p => ((hay.drop p).take needle.length) == needle)

/-- Modelled from the spec: the attribute test of the structured-data block
locator.  The HTML parser is an external collaborator; the source asks it for
script elements whose type attribute value contains "ld+json"
(case-sensitive substring, as in the lambda of the source).  Modelled as
locating a type= attribute (names lowercased by the parser) whose quoted or
bare value contains "ld+json". -/
def hasLdJsonType (attrs : List Char) : Bool :=
  match findIdxFrom attrs 0 (fun p =>
      ciMatchAt attrs p (("type=").toList) &&
      (p == 0 ||
        (match charAt attrs (p - 1) with
         | some c => isSpaceC c
         | none => true))) with
  | none => false
  | some p =>
    let rest := attrs.drop (p + 5)
    let v :=
      match rest with
      | '"' :: r => r.takeWhile (fun c => c != '"')
      | r => r.takeWhile (fun c => !(isSpaceC c) && c != '>')
    containsSub v (("ld+json").toList)

/-- Modelled from the spec: the structured-data block locator (BeautifulSoup
find_all of script tags with an ld+json type, and tag.string) is an external
collaborator; modelled as a scan for opening script tags, taking the raw text
up to the matching closing tag as the block payload.  Fuel bounds the scan;
every step advances, so fuel l.length + 1 is enough. -/
def findLdJsonBlocks_go (l : List Char) : Nat → Nat → List (List Char)
  | _, 0 => []
  | i, Nat.succ fuel =>
    if i + 7 ≤ l.length then
      if ciMatchAt l i (("<script").toList) &&
         (match charAt l (i + 7) with
          | some c => isTagSep c
          | none => true) then
        match findIdxFrom l (i + 7) (fun j =>
            match charAt l j with
            | some c => c == '>'
            | none => false) with
        | none => []
        | some q =>
          let attrs := listSlice l (i + 7) q
          let close := findIdxFrom l (q + 1) (fun j => ciMatchAt l j (("</script").toList))
          let stop :=
            match close with
            | some r => r
            | none => l.length
          let content := listSlice l (q + 1) stop
          let next :=
            match close with
            | some r => r + 9
            | none => l.length
          if hasLdJsonType attrs then content :: findLdJsonBlocks_go l next fuel
          else findLdJsonBlocks_go l next fuel
      else findLdJsonBlocks_go l (i + 1) fuel
    else []

/-- All structured-data block payloads of the markup. -/
def findLdJsonBlocks (l : List Char) : List (List Char) :=
  findLdJsonBlocks_go l 0 (l.length + 1)

/-- The structured-data pass of extract_price_candidates: parse each block as
JSON and walk it; a block that fails to parse is skipped (the source swallows
the exception) without affecting sibling blocks. -/
def structured_pass (l : List Char) : List ℚ :=
  (findLdJsonBlocks l).flatMap (fun b =>
    match parseJson b with
    | some j => walk j
    | none => [])

/-- extract_price_candidates of the source: union of the structured-data pass
and the text-pattern pass, filtered to the plausible band [1100, 3000], then
rounded to 2 decimals, deduplicated and sorted ascending. -/
def extract_price_candidates (html : String) : List ℚ :=
  let l := html.toList
  let candidates := structured_pass l ++ text_pass l
  sortedUnique ((candidates.filter (fun c => decide (1100 ≤ c ∧ c ≤ 3000))).map round2)

/-- Store configuration entry of retailers.yaml (spec StoreConfig). -/
structure StoreConfig where
  name : String
  url : String
  desired_price : Option ℚ
  must_match : Option String

/-- Python values that a state-record dict can hold at its keys. -/
inductive PyVal where
  | vnone : PyVal
  | vnum : ℚ → PyVal
  | vint : ℤ → PyVal
  | vstr : String → PyVal
  | vlist : List ℚ → PyVal
deriving DecidableEq

/-- A Python dict of record fields, as an association list. -/
abbrev PyDict := List (String × PyVal)

/-- dict.get(k): the stored value, or None when the key is absent. -/
def dictGet (d : PyDict) (k : String) : PyVal :=
  match d.find? (fun p => p.1 == k) with
  | some p => p.2
  | none => PyVal.vnone

/-- A best price as stored in a record: a float, or None when absent. -/
def optPrice : Option ℚ → PyVal
  | none => PyVal.vnone
  | some q => PyVal.vnum q

/-- min(now_prices) if now_prices else None, of the source. -/
def listMin : List ℚ → Option ℚ
  | [] => none
  | x :: xs => some (xs.foldl min x)

/-- Python numeric equality of the float b against a stored value: floats and
ints compare numerically, None and non-numeric values compare unequal. -/
def pyNumEq (b : ℚ) : PyVal → Bool
  | PyVal.vnum r => b == r
  | PyVal.vint n => b == (n : ℚ)
  | _ => false

/-- The two alert reasons that compare_and_alert can accumulate, in the order
the source appends them.  The human-readable message strings are abstracted;
only which reasons fire is relevant to the record and the alert flag. -/
inductive Reason where
  | priceChange : Reason
  | meetsDesired : Reason
deriving DecidableEq

/-- The alert-reason accumulation of compare_and_alert: only when best_now is
present; the price-change reason fires when prev_best is None or numerically
unequal to best_now; the desired-threshold reason fires when a desired price
is configured and best_now is at or below it. -/
def alert_reasons (best_now : Option ℚ) (prev_best : PyVal) (desired : Option ℚ) : List Reason :=
  match best_now, desired with
  | none, _ => []
  | some b, none =>
    if prev_best = PyVal.vnone ∨ pyNumEq b prev_best = false then [Reason.priceChange] else []
  | some b, some d =>
    (if prev_best = PyVal.vnone ∨ pyNumEq b prev_best = false then [Reason.priceChange] else []) ++
    (if b ≤ d then [Reason.meetsDesired] else [])

/-- prev.get("best_price") if prev else None: an empty (falsy) previous dict
yields None, otherwise the stored best_price, or None when the key is absent. -/
def prevBestOf (prev : PyDict) : PyVal :=
  if prev.isEmpty then PyVal.vnone else dictGet prev ("best_price")

/-- The new record built by compare_and_alert: the check time, the current
price list, its minimum as best_price, and the configured desired price. -/
def new_record_of (tnow : ℤ) (now_prices : List ℚ) (desired : Option ℚ) : PyDict :=
  [("last_checked", PyVal.vint tnow),
   ("last_prices", PyVal.vlist now_prices),
   ("best_price", optPrice (listMin now_prices)),
   ("desired_price", optPrice desired)]

/-- compare_and_alert of the source: build the new record, read the previous
best, accumulate alert reasons, and report whether any reason fired (the
notification dispatch is an external side effect that carries no data back).
The clock is passed explicitly in place of time.time(). -/
def compare_and_alert (store : StoreConfig) (tnow : ℤ) (prev : PyDict) (now_prices : List ℚ) :
    PyDict × Bool :=
  (new_record_of tnow now_prices store.desired_price,
   !(alert_reasons (listMin now_prices) (prevBestOf prev) store.desired_price).isEmpty)

/-- A store with no desired price configured, for concrete instances. -/
def anyStore : StoreConfig := ⟨"Store", "https://example.test/p", none, none⟩

/-- A store with a desired price of 1200, for concrete instances. -/
def desiredStore : StoreConfig := ⟨"Store", "https://example.test/p", some 1200, none⟩

/-- Markup with two structured-data blocks, the first invalid JSON. -/
def twoBlockHtml : String :=
  "<script type=\"application/ld+json\">\x7bbad\x7d</script><script type=\"application/ld+json\">\x7b\"price\": 1299\x7d</script>"

/-- Markup whose only price sits in a structured-data block, with deny-listed
context words (GB, /mo) in the surrounding text. -/
def structuredHtml : String :=
  "<script type=\"application/ld+json\">\x7b\"offers\": \x7b\"price\": \"1,299.00\"\x7d\x7d</script> 64 GB $49.99/mo"

section

attribute [local semireducible] Rat.mul Rat.add Rat.inv Rat.sub

theorem sortedUnique_cons (a : ℚ) (as : List ℚ) :
    sortedUnique (a :: as) = insertUniq a (sortedUnique as) := rfl

theorem mem_insertUniq {x y : ℚ} {l : List ℚ} : y ∈ insertUniq x l ↔ y = x ∨ y ∈ l := by
  induction l with
  | nil => simp [insertUniq]
  | cons a as ih =>
    by_cases h1 : x < a
    · simp [insertUniq, h1]
    · by_cases h2 : x = a
      · subst h2
        have e : insertUniq x (x :: as) = x :: as := by simp [insertUniq]
        rw [e, List.mem_cons]
        tauto
      · simp only [insertUniq, if_neg h1, if_neg h2, List.mem_cons, ih]
        tauto

theorem pairwise_insertUniq {x : ℚ} {l : List ℚ} (h : l.Pairwise (· < ·)) :
    (insertUniq x l).Pairwise (· < ·) := by
  induction l with
  | nil => simp [insertUniq]
  | cons a as ih =>
    rcases List.pairwise_cons.mp h with ⟨ha, has⟩
    by_cases h1 : x < a
    · simp only [insertUniq, if_pos h1]
      refine List.pairwise_cons.mpr ⟨?_, h⟩
      intro b hb
      rcases List.mem_cons.mp hb with rfl | hb2
      · exact h1
      · exact lt_trans h1 (ha b hb2)
    · by_cases h2 : x = a
      · subst h2
        have e : insertUniq x (x :: as) = x :: as := by simp [insertUniq]
        rw [e]
        exact h
      · have hax : a < x := lt_of_le_of_ne (le_of_not_lt h1) (fun e => h2 e.symm)
        simp only [insertUniq, if_neg h1, if_neg h2]
        refine List.pairwise_cons.mpr ⟨?_, ih has⟩
        intro b hb
        rcases mem_insertUniq.mp hb with rfl | hb2
        · exact hax
        · exact ha b hb2

theorem mem_sortedUnique {y : ℚ} {l : List ℚ} : y ∈ sortedUnique l ↔ y ∈ l := by
  induction l with
  | nil => simp [sortedUnique]
  | cons a as ih =>
    rw [sortedUnique_cons, mem_insertUniq, ih, List.mem_cons]

theorem pairwise_sortedUnique (l : List ℚ) : (sortedUnique l).Pairwise (· < ·) := by
  induction l with
  | nil => exact List.Pairwise.nil
  | cons a as ih => rw [sortedUnique_cons]; exact pairwise_insertUniq ih

theorem floor_le_roundHalfEven (q : ℚ) : ⌊q⌋ ≤ roundHalfEven q := by
  unfold roundHalfEven
  split
  · exact le_refl _
  · split
    · omega
    · split <;> omega

theorem roundHalfEven_le_floor_add_one (q : ℚ) : roundHalfEven q ≤ ⌊q⌋ + 1 := by
  unfold roundHalfEven
  split
  · omega
  · split
    · omega
    · split <;> omega

theorem le_roundHalfEven {n : ℤ} {q : ℚ} (h : (n : ℚ) ≤ q) : n ≤ roundHalfEven q :=
  le_trans (Int.le_floor.mpr h) (floor_le_roundHalfEven q)

theorem roundHalfEven_le {n : ℤ} {q : ℚ} (h : q ≤ (n : ℚ)) : roundHalfEven q ≤ n := by
  have hf : ⌊q⌋ ≤ n := by
    calc ⌊q⌋ ≤ ⌊(n : ℚ)⌋ := Int.floor_le_floor h
    _ = n := Int.floor_intCast n
  rcases lt_or_eq_of_le hf with hlt | heq
  · exact le_trans (roundHalfEven_le_floor_add_one q) (by omega)
  · have hq1 : (n : ℚ) ≤ q := by
      have h2 := Int.floor_le q
      rwa [heq] at h2
    have hq : q = (n : ℚ) := le_antisymm h hq1
    rw [hq]
    simp [roundHalfEven, Int.floor_intCast]

theorem round2_bounds {c : ℚ} (h1 : 1100 ≤ c) (h2 : c ≤ 3000) :
    1100 ≤ round2 c ∧ round2 c ≤ 3000 ∧ ∃ k : ℤ, round2 c = (k : ℚ) / 100 := by
  have hlo : (110000 : ℤ) ≤ roundHalfEven (c * 100) := by
    apply le_roundHalfEven
    push_cast
    linarith
  have hhi : roundHalfEven (c * 100) ≤ (300000 : ℤ) := by
    apply roundHalfEven_le
    push_cast
    linarith
  refine ⟨?_, ?_, ⟨roundHalfEven (c * 100), rfl⟩⟩
  · rw [round2, le_div_iff (by norm_num : (0 : ℚ) < 100)]
    have hc : (110000 : ℚ) ≤ (roundHalfEven (c * 100) : ℚ) := by exact_mod_cast hlo
    linarith
  · rw [round2, div_le_iff (by norm_num : (0 : ℚ) < 100)]
    have hc : ((roundHalfEven (c * 100) : ℚ)) ≤ 300000 := by exact_mod_cast hhi
    linarith

theorem foldl_min_le_init (a : ℚ) (l : List ℚ) : l.foldl min a ≤ a := by
  induction l generalizing a with
  | nil => exact le_refl a
  | cons x xs ih =>
    simp only [List.foldl_cons]
    calc xs.foldl min (min a x) ≤ min a x := ih (min a x)
    _ ≤ a := min_le_left a x

theorem foldl_min_le_mem {y : ℚ} {l : List ℚ} (a : ℚ) (hy : y ∈ l) : l.foldl min a ≤ y := by
  induction l generalizing a with
  | nil => cases hy
  | cons x xs ih =>
    simp only [List.foldl_cons]
    rcases List.mem_cons.mp hy with rfl | hy2
    · calc xs.foldl min (min a y) ≤ min a y := foldl_min_le_init (min a y) xs
      _ ≤ y := min_le_right a y
    · exact ih (min a x) hy2

theorem foldl_min_mem (a : ℚ) (l : List ℚ) : l.foldl min a = a ∨ l.foldl min a ∈ l := by
  induction l generalizing a with
  | nil => exact Or.inl rfl
  | cons x xs ih =>
    simp only [List.foldl_cons]
    rcases ih (min a x) with h | h
    · rcases le_total a x with hax | hxa
      · exact Or.inl (by rw [h, min_eq_left hax])
      · exact Or.inr (by rw [h, min_eq_right hxa]; exact List.mem_cons_self x xs)
    · exact Or.inr (List.mem_cons_of_mem x h)

theorem extract_def (html : String) :
    extract_price_candidates html =
      sortedUnique (((structured_pass html.toList ++ text_pass html.toList).filter
        (fun c => decide (1100 ≤ c ∧ c ≤ 3000))).map round2) := rfl

/-- C1: for every markup string, every value in the list returned by
extract_price_candidates lies in [1100, 3000] and has at most 2 decimal
places, and the list is strictly ascending, hence duplicate-free and sorted
in ascending order. -/
theorem extract_output_bounded_sorted (html : String) :
    (∀ v ∈ extract_price_candidates html,
      1100 ≤ v ∧ v ≤ 3000 ∧ ∃ k : ℤ, v = (k : ℚ) / 100) ∧
    (extract_price_candidates html).Pairwise (· < ·) := by
  constructor
  · intro v hv
    rw [extract_def] at hv
    have hv2 := mem_sortedUnique.mp hv
    rcases List.mem_map.mp hv2 with ⟨c, hc, rfl⟩
    have hc2 := (List.mem_filter.mp hc).2
    have hc3 : 1100 ≤ c ∧ c ≤ 3000 := of_decide_eq_true hc2
    exact round2_bounds hc3.1 hc3.2
  · rw [extract_def]
    exact pairwise_sortedUnique _

/-- C1 witness: the bounds hold at the concrete output value 1234.56 of the
markup x $1,234.56. -/
theorem extract_output_bounded_sorted_witness :
    1100 ≤ (123456 / 100 : ℚ) ∧ (123456 / 100 : ℚ) ≤ 3000 ∧
      ∃ k : ℤ, (123456 / 100 : ℚ) = (k : ℚ) / 100 :=
  (extract_output_bounded_sorted ("x $1,234.56")).1 (123456 / 100) (by decide)

/-- C2 counterexample: a 4-digit amount written without a thousands
separator is not collected as its full value; the markup Now $1234.56 yields
an empty output (the pattern captures only 123, which the band filter drops),
so 1234.56 does not appear in the output. -/
theorem no_separator_amount_not_collected :
    ¬ ((123456 / 100 : ℚ) ∈ extract_price_candidates ("Now $1234.56")) := by decide

/-- C2 amended: the text pass requires a dollar or USD marker and matches
amounts of one to three leading digits with comma-separated thousands groups
and optional cents; with the separator present, $1,234.56 yields 1234.56 and
usd 1,299 yields 1299 (case-insensitive, USD without dollar sign accepted),
while the separator-less $1234.56 matches only its first three digits and
produces no in-band value. -/
theorem price_pattern_separator_required :
    extract_price_candidates ("Now $1,234.56") = [123456 / 100] ∧
    extract_price_candidates ("now usd 1,299 only") = [1299] ∧
    extract_price_candidates ("Now $1234.56") = [] := by decide

/-- C6 counterexample: a deny-listed context word can occur inside the
40-character window without suppressing the match, because EXCLUDE_NEAR
demands word boundaries around the word: here the percent sign of 20% is
inside the window of the $1,200 match, yet 1200 is included. -/
theorem deny_word_in_window_still_included :
    ('%' ∈ ("Pay $1,200 save 20% today").toList) ∧
    extract_price_candidates ("Pay $1,200 save 20% today") = [1200] := by decide

/-- C6 amended: a text-pattern match is dropped exactly when the EXCLUDE_NEAR
regex matches its 40-character context window (a deny-listed word counts only
when the word-boundary conditions of the pattern hold around it); every
candidate the text pass emits comes from a match whose window EXCLUDE_NEAR
does not match. -/
theorem text_candidates_escape_exclude (html : String) (c : ℚ)
    (h : c ∈ text_pass html.toList) :
    ∃ m, m ∈ PRICE_RE_finditer html.toList ∧
      EXCLUDE_NEAR_search (contextOf html.toList m.1 m.2.1) = false ∧
      parsePriceGroup m.2.2 = some c := by
  rcases List.mem_filterMap.mp h with ⟨m, hm, hf⟩
  refine ⟨m, hm, ?_⟩
  by_cases he : EXCLUDE_NEAR_search (contextOf html.toList m.1 m.2.1) = true
  · rw [if_pos he] at hf
    cases hf
  · have he2 : EXCLUDE_NEAR_search (contextOf html.toList m.1 m.2.1) = false := by
      revert he
      cases EXCLUDE_NEAR_search (contextOf html.toList m.1 m.2.1) <;> simp
    rw [he2] at hf
    exact ⟨he2, by simpa using hf⟩

/-- C6 amended witness: the 1200 candidate of Pay $1,200 now comes from a
match whose context window EXCLUDE_NEAR does not match. -/
theorem text_candidates_escape_exclude_witness :
    ∃ m, m ∈ PRICE_RE_finditer (("Pay $1,200 now").toList) ∧
      EXCLUDE_NEAR_search (contextOf (("Pay $1,200 now").toList) m.1 m.2.1) = false ∧
      parsePriceGroup m.2.2 = some 1200 :=
  text_candidates_escape_exclude ("Pay $1,200 now") 1200 (by decide)

/-- C8: the extractor is a total function of the markup (exceptions of the
source are modelled as swallowed Option failures); empty markup and
non-markup text yield the empty list, and a structured-data block whose
payload is not valid JSON is skipped while its sibling block is still
parsed and contributes its price. -/
theorem extract_edge_cases_total :
    extract_price_candidates ("") = [] ∧
    extract_price_candidates ("<not <markup $$ usd") = [] ∧
    extract_price_candidates (twoBlockHtml) = [1299] := by decide

/-- C9: a value collected by the structured-data pass that lies in
[1100, 3000] always reaches the extractor output (rounded to 2 places); no
deny-list context condition is consulted for structured-data candidates. -/
theorem structured_candidate_always_included (html : String) (c : ℚ)
    (h : c ∈ structured_pass html.toList) (h1 : 1100 ≤ c) (h2 : c ≤ 3000) :
    round2 c ∈ extract_price_candidates html := by
  rw [extract_def]
  apply mem_sortedUnique.mpr
  apply List.mem_map_of_mem round2
  apply List.mem_filter.mpr
  exact ⟨List.mem_append.mpr (Or.inl h), decide_eq_true ⟨h1, h2⟩⟩

/-- C9 witness: the structured-data price 1299 of structuredHtml is included
in the output even though the deny-listed words GB and /mo occur within 40
characters of it in the markup. -/
theorem structured_candidate_always_included_witness :
    (1299 : ℚ) ∈ extract_price_candidates (structuredHtml) := by
  have h := structured_candidate_always_included (structuredHtml) 1299
    (by decide) (by norm_num) (by norm_num)
  have e : round2 (1299 : ℚ) = 1299 := by decide
  rwa [e] at h


/-- C3 counterexample: compare_and_alert is not idempotent when a desired
price is configured and met; with desired_price 1200 and prices [1150], a
second call whose previous record is the unchanged record of the first call
still fires an alert. -/
theorem second_run_still_alerts :
    (compare_and_alert desiredStore 1
      (compare_and_alert desiredStore 0 [] [1150]).1 [1150]).2 = true := by decide

/-- C3 amended: re-running compare_and_alert with the same store, the same
price list and the unchanged record of the first run fires no alert,
provided the desired-threshold condition does not hold (no desired price is
configured, or the best price stays above it); when the desired threshold is
met it re-fires on every run. -/
theorem prevBestOf_new_record (t : ℤ) (ps : List ℚ) (d : Option ℚ) :
    prevBestOf (new_record_of t ps d) = optPrice (listMin ps) := rfl

theorem second_run_no_alert (s : StoreConfig) (t1 t2 : ℤ) (prev0 : PyDict) (prices : List ℚ)
    (h : ∀ d b, s.desired_price = some d → listMin prices = some b → d < b) :
    (compare_and_alert s t2 (compare_and_alert s t1 prev0 prices).1 prices).2 = false := by
  cases hm : listMin prices with
  | none =>
    cases hd : s.desired_price with
    | none => simp [compare_and_alert, alert_reasons, hm, hd]
    | some d => simp [compare_and_alert, alert_reasons, hm, hd]
  | some b =>
    cases hd : s.desired_price with
    | none =>
      simp [compare_and_alert, alert_reasons, hm, hd, prevBestOf_new_record, optPrice, pyNumEq]
    | some d =>
      have hdb : d < b := h d b hd hm
      simp [compare_and_alert, alert_reasons, hm, hd, prevBestOf_new_record, optPrice, pyNumEq,
        not_le.mpr hdb]

/-- C3 amended witness: with no desired price configured, the second run on
the unchanged record of the first fires no alert. -/
theorem second_run_no_alert_witness :
    (compare_and_alert anyStore 1
      (compare_and_alert anyStore 0 [] [1150]).1 [1150]).2 = false :=
  second_run_no_alert anyStore 0 1 [] [1150]
    (fun d b hd _ => absurd hd (by simp [anyStore]))

/-- C4: with a present best price, the price-change reason fires exactly when
the previous best is absent or numerically unequal to it; with an absent
(empty) previous record it always fires; and with a previous best numerically
equal to the new best and no desired price configured, no reason fires and
the alert flag is false. -/
theorem price_change_reason_iff (s : StoreConfig) (t : ℤ) (prev : PyDict) (prices : List ℚ)
    (b : ℚ) (h : listMin prices = some b) :
    (Reason.priceChange ∈ alert_reasons (listMin prices) (prevBestOf prev) s.desired_price ↔
      (prevBestOf prev = PyVal.vnone ∨ pyNumEq b (prevBestOf prev) = false)) ∧
    (Reason.priceChange ∈ alert_reasons (listMin prices) (prevBestOf ([] : PyDict))
      s.desired_price) ∧
    (pyNumEq b (prevBestOf prev) = true → s.desired_price = none →
      alert_reasons (listMin prices) (prevBestOf prev) s.desired_price = [] ∧
      (compare_and_alert s t prev prices).2 = false) := by
  rw [h]
  refine ⟨?_, ?_, ?_⟩
  · cases hd : s.desired_price with
    | none =>
      constructor
      · intro hm
        by_contra hc
        rw [alert_reasons, if_neg hc] at hm
        cases hm
      · intro hc
        rw [alert_reasons, if_pos hc]
        exact List.mem_singleton.mpr rfl
    | some d =>
      constructor
      · intro hm
        by_contra hc
        rw [alert_reasons, if_neg hc, List.nil_append] at hm
        by_cases hbd : b ≤ d
        · rw [if_pos hbd] at hm
          rcases List.mem_singleton.mp hm with e
          cases e
        · rw [if_neg hbd] at hm
          cases hm
      · intro hc
        rw [alert_reasons, if_pos hc]
        exact List.mem_append.mpr (Or.inl (List.mem_singleton.mpr rfl))
  · have he : prevBestOf ([] : PyDict) = PyVal.vnone := rfl
    cases hd : s.desired_price with
    | none =>
      rw [alert_reasons, if_pos (Or.inl he)]
      exact List.mem_singleton.mpr rfl
    | some d =>
      rw [alert_reasons, if_pos (Or.inl he)]
      exact List.mem_append.mpr (Or.inl (List.mem_singleton.mpr rfl))
  · intro he hd
    have hcond : ¬ (prevBestOf prev = PyVal.vnone ∨ pyNumEq b (prevBestOf prev) = false) := by
      rintro (h1 | h2)
      · rw [h1] at he
        simp [pyNumEq] at he
      · rw [he] at h2
        cases h2
    rw [hd]
    constructor
    · rw [alert_reasons, if_neg hcond]
    · simp only [compare_and_alert, h, hd, alert_reasons, if_neg hcond]
      rfl

/-- C4 witness: with an empty previous record and prices [1150], the
price-change reason fires. -/
theorem price_change_reason_iff_witness :
    Reason.priceChange ∈ alert_reasons (listMin [(1150 : ℚ)]) (prevBestOf ([] : PyDict))
      anyStore.desired_price :=
  (price_change_reason_iff anyStore 0 [] [1150] 1150 rfl).2.1

/-- C5: with a present best price and a configured desired price, the
desired-threshold reason fires exactly when the best is at or below the
desired price (inclusive boundary), and when it fires the alert flag is
true. -/
theorem desired_threshold_iff (s : StoreConfig) (t : ℤ) (prev : PyDict) (prices : List ℚ)
    (b d : ℚ) (hb : listMin prices = some b) (hd : s.desired_price = some d) :
    (Reason.meetsDesired ∈ alert_reasons (listMin prices) (prevBestOf prev) s.desired_price ↔
      b ≤ d) ∧
    (b ≤ d → (compare_and_alert s t prev prices).2 = true) := by
  constructor
  · rw [hb, hd, alert_reasons]
    constructor
    · intro hm
      rcases List.mem_append.mp hm with h1 | h2
      · by_cases hc : (prevBestOf prev = PyVal.vnone ∨ pyNumEq b (prevBestOf prev) = false)
        · rw [if_pos hc] at h1
          rcases List.mem_singleton.mp h1 with e
          cases e
        · rw [if_neg hc] at h1
          cases h1
      · by_cases hbd : b ≤ d
        · exact hbd
        · rw [if_neg hbd] at h2
          cases h2
    · intro hbd
      exact List.mem_append.mpr (Or.inr (by rw [if_pos hbd]; exact List.mem_singleton.mpr rfl))
  · intro hbd
    simp only [compare_and_alert, hb, hd, alert_reasons, if_pos hbd]
    by_cases hc : (prevBestOf prev = PyVal.vnone ∨ pyNumEq b (prevBestOf prev) = false) <;>
      simp [hc]

/-- C5 witness: a best price of 1199.99 against a desired price of 1200.00
fires the desired-threshold reason (inclusive boundary). -/
theorem desired_threshold_iff_witness :
    Reason.meetsDesired ∈ alert_reasons (listMin [(119999 / 100 : ℚ)]) (prevBestOf ([] : PyDict))
      desiredStore.desired_price :=
  ((desired_threshold_iff desiredStore 0 [] [119999 / 100] (119999 / 100) 1200
      rfl rfl).1).mpr (by norm_num)

/-- C7: every record built by compare_and_alert stores the current price list
as last_prices, and stores as best_price exactly the minimum of that list
when it is non-empty and None when it is empty; best_price is never set
independently of last_prices. -/
theorem record_best_is_min (s : StoreConfig) (t : ℤ) (prev : PyDict) (prices : List ℚ) :
    dictGet (compare_and_alert s t prev prices).1 ("last_prices") = PyVal.vlist prices ∧
    (prices = [] → dictGet (compare_and_alert s t prev prices).1 ("best_price") = PyVal.vnone) ∧
    (∀ x xs, prices = x :: xs →
      ∃ b, dictGet (compare_and_alert s t prev prices).1 ("best_price") = PyVal.vnum b ∧
        b ∈ prices ∧ ∀ y ∈ prices, b ≤ y) := by
  refine ⟨rfl, ?_, ?_⟩
  · rintro rfl
    rfl
  · rintro x xs rfl
    refine ⟨xs.foldl min x, rfl, ?_, ?_⟩
    · rcases foldl_min_mem x xs with h | h
      · rw [h]
        exact List.mem_cons_self x xs
      · exact List.mem_cons_of_mem x h
    · intro y hy
      rcases List.mem_cons.mp hy with rfl | hy2
      · exact foldl_min_le_init y xs
      · exact foldl_min_le_mem x hy2

/-- C7 witness: for prices [1200, 1150] the stored best price is a minimum
of the stored list. -/
theorem record_best_is_min_witness :
    ∃ b, dictGet (compare_and_alert anyStore 0 [] [(1200 : ℚ), 1150]).1 ("best_price") =
        PyVal.vnum b ∧
      b ∈ [(1200 : ℚ), 1150] ∧ ∀ y ∈ [(1200 : ℚ), 1150], b ≤ y :=
  (record_best_is_min anyStore 0 [] [1200, 1150]).2.2 1200 [1150] rfl

/-- C10: an empty previous record (what the main loop passes for a store with
no prior state) is treated as an absent previous: the previous best is read
as None, so with a non-empty current price list the price-change reason fires
and the alert flag is true. -/
theorem empty_prev_treated_absent (s : StoreConfig) (t : ℤ) (prices : List ℚ) (b : ℚ)
    (h : listMin prices = some b) :
    prevBestOf ([] : PyDict) = PyVal.vnone ∧
    Reason.priceChange ∈ alert_reasons (listMin prices) (prevBestOf ([] : PyDict))
      s.desired_price ∧
    (compare_and_alert s t [] prices).2 = true := by
  have he : prevBestOf ([] : PyDict) = PyVal.vnone := rfl
  refine ⟨rfl, ?_, ?_⟩
  · rw [h]
    cases hd : s.desired_price with
    | none =>
      rw [alert_reasons, if_pos (Or.inl he)]
      exact List.mem_singleton.mpr rfl
    | some d =>
      rw [alert_reasons, if_pos (Or.inl he)]
      exact List.mem_append.mpr (Or.inl (List.mem_singleton.mpr rfl))
  · cases hd : s.desired_price with
    | none => simp [compare_and_alert, alert_reasons, h, hd, prevBestOf]
    | some d =>
      simp only [compare_and_alert, alert_reasons, h, hd]
      have e : prevBestOf ([] : PyDict) = PyVal.vnone := rfl
      rw [e, if_pos (Or.inl rfl)]
      simp

/-- C10 witness: with an empty previous record and prices [1150] the alert
flag is true. -/
theorem empty_prev_treated_absent_witness :
    (compare_and_alert anyStore 0 [] [(1150 : ℚ)]).2 = true :=
  (empty_prev_treated_absent anyStore 0 [1150] 1150 rfl).2.2

end
